import Mathlib

/-!
Shallow embedding of the VietDub segment pipeline (src/core of the repository):
`merge_short_segments` from transcriber.py, `translate_segments` and
`parse_translation_response` from translator.py, and `create_dubbed_audio`
from merger.py.  Python floats are modelled as rationals, Python's dynamic
JSON values as the `Json` inductive, and the external collaborators (the
OpenRouter HTTP call, Python's `json.loads` decoder, the filesystem and the
pydub audio library) as explicit oracle parameters.
-/

/-- JSON-like values as produced by Python's `json.loads`.  Non-integral
numbers are not modelled; the repository's translation protocol only ever
carries integral segment ids and text. -/
inductive Json where
  | null
  | bool (b : Bool)
  | num (n : Int)
  | str (s : String)
  | arr (items : List Json)
  | obj (fields : List (String × Json))

/-- Python truthiness of a decoded JSON value (`if x:` / `not x`). -/
def Json.truthy : Json → Bool
  | .null => false
  | .bool b => b
  | .num n => n != 0
  | .str s => s != ""
  | .arr items => !items.isEmpty
  | .obj fields => !fields.isEmpty

/-- Python `x is None` on a decoded JSON value. -/
def Json.isNull : Json → Bool
  | .null => true
  | _ => false

/-- A segment dict as threaded through the pipeline: keys `id`, `start`,
`end`, `text`, `vietnamese`, `audio_path`.  `end` is a Lean keyword, so the
field is called `endTime`.  The `vietnamese` field holds a `Json` value
because the reconciliation step copies raw decoded values into it. -/
structure Segment where
  id : Int
  start : ℚ
  endTime : ℚ
  text : String
  vietnamese : Json
  audio_path : String

/-! ## Segment merge engine (src/core/transcriber.py, lines 96-135) -/

/-- transcriber.py lines 110-133: the accumulator loop of
`merge_short_segments`.  `current_seg` is the running accumulator; the gap
threshold `0.5` is hardcoded in the source (line 122). -/
def mergeLoop (min_duration : ℚ) (current_seg : Segment) : List Segment → List Segment
  | [] => [current_seg]
  | next_seg :: rest =>
    let duration := current_seg.endTime - current_seg.start
    let gap := next_seg.start - current_seg.endTime
    if duration < min_duration ∨ gap < 1/2 then
      mergeLoop min_duration
        { current_seg with
            endTime := next_seg.endTime
            text := current_seg.text ++ " " ++ next_seg.text } rest
    else
      current_seg :: mergeLoop min_duration next_seg rest

/-- transcriber.py lines 96-135: `merge_short_segments`. -/
def merge_short_segments (segments : List Segment) (min_duration : ℚ) : List Segment :=
  match segments with
  | [] => []
  | first :: rest => mergeLoop min_duration first rest

/-- Join a list of strings with single spaces, the same separator
`merge_short_segments` inserts at merge points (transcriber.py line 125). -/
def joinSp : List String → String
  | [] => ""
  | [s] => s
  | s :: rest => s ++ " " ++ joinSp rest

/-- `goodRun min_duration cur l` says walking the merge loop from `cur`
through `l` never merges: every accumulator is long enough and every gap is
wide enough. -/
def goodRun (min_duration : ℚ) : Segment → List Segment → Prop
  | _, [] => True
  | cur, n :: rest =>
    ¬(cur.endTime - cur.start < min_duration ∨ n.start - cur.endTime < 1/2) ∧
      goodRun min_duration n rest

/-! ## Translation reconciliation engine (src/core/translator.py)

The HTTP layer (`call_openrouter`, translator.py lines 96-151) is an external
collaborator: it is modelled as an oracle `call : String → List (Int × String)
→ Option String` taking the model id and the serialized `(id, text)` pairs of
the batch (the payload embedded in `TRANSLATION_PROMPT`) and returning the
reply's message content, or `none` when `requests` raises and the function
returns `None`.  Python's `json.loads` is likewise an oracle
`loads : String → Option Json`, `none` meaning `JSONDecodeError`. -/

/-- A key of the translation result dict.  After the `int(item_id)` coercion
a key is either an integer or a non-numeric string (translator.py lines
203-208); `True`/`False` ids also coerce to the integers 1/0. -/
inductive JKey where
  | num (n : Int)
  | str (s : String)
deriving DecidableEq

/-- Lookup in the translation result dict.  The dict is modelled as an
association list onto which each `result[item_id] = vietnamese` assignment
prepends its pair, so the first match is the latest assignment, matching
Python's overwrite-on-duplicate semantics. -/
def dictLookup (key : JKey) : List (JKey × Json) → Option Json
  | [] => none
  | (k, v) :: rest => if k = key then v else dictLookup key rest

/-- Latest-occurrence lookup among a dict literal's fields (searches the
reversed field list). -/
def pyGetRev (key : String) : List (String × Json) → Json
  | [] => .null
  | (k, v) :: rest => if k = key then v else pyGetRev key rest

/-- Python `item.get(key)` on a decoded JSON object: the value of the last
occurrence of `key` (later duplicate keys win in `json.loads`), or `None`
when absent. -/
def pyGet (fields : List (String × Json)) (key : String) : Json :=
  pyGetRev key fields.reverse

/-- Python's `a or b or ...` chain: the first truthy operand, else the last
operand (translator.py lines 199-200). -/
def pyOr : List Json → Json
  | [] => .null
  | [v] => v
  | v :: rest => if v.truthy then v else pyOr rest

/-- Decimal digit-run parser for `pyIntOfString`: all characters must be
digits and at least one must be present. -/
def pyDigitsToNat (cs : List Char) : Option Nat :=
  if cs.isEmpty then none
  else if cs.all Char.isDigit then
    some (cs.foldl (fun acc c => 10 * acc + (c.toNat - 48)) 0)
  else none

/-- Python `int(s)` on a string: strip surrounding whitespace, allow one
leading sign, then decimal digits.  (Python's digit-group underscores and
non-ASCII digits are not modelled; the protocol's ids never use them.) -/
def pyIntOfString (s : String) : Option Int :=
  let cs := ((s.data.dropWhile Char.isWhitespace).reverse.dropWhile
    Char.isWhitespace).reverse
  match cs with
  | '-' :: rest => (pyDigitsToNat rest).map fun m => -(m : Int)
  | '+' :: rest => (pyDigitsToNat rest).map fun m => (m : Int)
  | rest => (pyDigitsToNat rest).map fun m => (m : Int)

/-- translator.py lines 197-208: one iteration of the result-building loop.
A non-dict element raises `AttributeError` on `.get` (modelled as `.error`);
an id that `int()` cannot coerce stays as-is, and if it is then unhashable
(a list or dict) the `result[item_id]` assignment raises `TypeError`
(`.error`).  The `.null` id case is unreachable: it is guarded by the
`item_id is not None` test. -/
def processItem (item : Json) (result : List (JKey × Json)) :
    Except Unit (List (JKey × Json)) :=
  match item with
  | .obj fields =>
    let item_id := pyOr [pyGet fields "id", pyGet fields "ID", pyGet fields "Id"]
    let vietnamese := pyOr [pyGet fields "vietnamese", pyGet fields "Vietnamese",
      pyGet fields "vi", pyGet fields "translation"]
    if !item_id.isNull && vietnamese.truthy then
      match item_id with
      | .num n => .ok ((JKey.num n, vietnamese) :: result)
      | .bool b => .ok ((JKey.num (if b then 1 else 0), vietnamese) :: result)
      | .str s =>
        match pyIntOfString s with
        | some n => .ok ((JKey.num n, vietnamese) :: result)
        | none => .ok ((JKey.str s, vietnamese) :: result)
      | .arr _ => .error ()
      | .obj _ => .error ()
      | .null => .error ()
    else .ok result
  | _ => .error ()

/-- translator.py lines 196-208: fold `processItem` over the decoded items. -/
def processItems : List Json → List (JKey × Json) → Except Unit (List (JKey × Json))
  | [], result => .ok result
  | item :: rest, result =>
    match processItem item result with
    | .ok result => processItems rest result
    | .error e => .error e

/-- Python `for item in translations:` over an arbitrary decoded value: a
list iterates its elements; an empty string or empty dict iterates nothing
(yielding the empty result map); any other value raises (`TypeError` on
non-iterables, `AttributeError` on string/dict element `.get`). -/
def itemsToMap : Json → Except Unit (List (JKey × Json))
  | .arr items => processItems items []
  | .str s => if s = "" then .ok [] else .error ()
  | .obj fields => if fields.isEmpty then .ok [] else .error ()
  | _ => .error ()

/-- translator.py lines 170-177: the fenced-code-block extraction
`re.search(marker + whitespace + lazy-group + whitespace + closing fence)`:
the interior between the first occurrence of `marker` and the next
occurrence of three backticks, whitespace-trimmed; `none` when no closing
fence follows (the regex fails and the response is kept whole). -/
def extractFence (marker : String) (response : String) : Option String :=
  match response.splitOn marker with
  | [] => none
  | [_] => none
  | _ :: after_parts =>
    let after := String.intercalate marker after_parts
    match after.splitOn "```" with
    | [] => none
    | [_] => none
    | interior :: _ => some interior.trim

/-- translator.py lines 179-183: slice from the first `[` to the last `]`
inclusive (`response[start:end]` with `start = find('[')`,
`end = rfind(']') + 1`); the response is unchanged when either bracket is
absent, and the slice is empty when the last `]` precedes the first `[`. -/
def bracketSpan (response : String) : String :=
  let cs := response.data
  match cs.findIdx? (fun c => c = '[') with
  | none => response
  | some start =>
    match cs.reverse.findIdx? (fun c => c = ']') with
    | none => response
    | some ridx =>
      let stop := cs.length - ridx
      String.mk ((cs.drop start).take (stop - start))

/-- translator.py lines 154-210: `parse_translation_response`.  Extraction
order: a ```json fence, else a plain fence, else the bracket span; then
`json.loads` on the stripped text, with one bounded repair (prefix `[`,
suffix `]`) on decode failure.  Any exception inside the function (decode
failure after repair, bad element shapes, unhashable ids) surfaces as
`.error` to the caller's `except` block. -/
def parse_translation_response (loads : String → Option Json) (response : String) :
    Except Unit (List (JKey × Json)) :=
  let response :=
    if (response.splitOn "```json").length ≥ 2 then
      match extractFence "```json" response with
      | some inner => inner
      | none => response
    else if (response.splitOn "```").length ≥ 2 then
      match extractFence "```" response with
      | some inner => inner
      | none => response
    else bracketSpan response
  match loads response.trim with
  | some translations => itemsToMap translations
  | none =>
    let response := response.trim
    let response := if ¬ response.startsWith "[" then "[" ++ response else response
    let response := if ¬ response.endsWith "]" then response ++ "]" else response
    match loads response with
    | some translations => itemsToMap translations
    | none => Except.error ()

/-- translator.py lines 42-45: the `(id, english-text)` pairs serialized into
the batch prompt. -/
def batchPayload (batch : List Segment) : List (Int × String) :=
  batch.map fun seg => (seg.id, seg.text)

/-- translator.py lines 77-79 / 82-84 / 89-91: the identity fallback applied
to a whole batch — set `vietnamese` to the source `text` for every segment
whose `vietnamese` is not already truthy. -/
def fallbackBatch (batch : List Segment) : List Segment :=
  batch.map fun seg =>
    if seg.vietnamese.truthy then seg else { seg with vietnamese := .str seg.text }

/-- translator.py lines 61-71: per-segment reconciliation against the parsed
result map — numeric id first, then its string form, else the identity
fallback guarded by `not seg.get("vietnamese")`. -/
def reconcileBatch (translations : List (JKey × Json)) (batch : List Segment) :
    List Segment :=
  batch.map fun seg =>
    match dictLookup (JKey.num seg.id) translations with
    | some v => { seg with vietnamese := v }
    | none =>
      match dictLookup (JKey.str (toString seg.id)) translations with
      | some v => { seg with vietnamese := v }
      | none =>
        if seg.vietnamese.truthy then seg else { seg with vietnamese := .str seg.text }

/-- translator.py lines 50-91: handle one batch's reply.  `None` and the
empty reply are falsy (`if response:`), a parse exception or an empty parsed
map (`if not translations: raise`) trigger the batch-wide fallback, else the
map is reconciled segment by segment. -/
def handleResponse (loads : String → Option Json) (response : Option String)
    (batch : List Segment) : List Segment :=
  match response with
  | none => fallbackBatch batch
  | some r =>
    if r = "" then fallbackBatch batch
    else
      match parse_translation_response loads r with
      | .error _ => fallbackBatch batch
      | .ok translations =>
        if translations.isEmpty then fallbackBatch batch
        else reconcileBatch translations batch

/-- One iteration of the batch loop (translator.py lines 39-91). -/
def processOneBatch (call : String → List (Int × String) → Option String)
    (loads : String → Option Json) (model : String) (batch : List Segment) :
    List Segment :=
  handleResponse loads (call model (batchPayload batch)) batch

/-- Structural worker for `chunks`: `cur` is the current batch reversed,
`n` the remaining room in it. -/
def chunksGo (batch_size : Nat) : List Segment → List Segment → Nat →
    List (List Segment)
  | [], cur, _ => if cur.isEmpty then [] else [cur.reverse]
  | x :: xs, cur, n =>
    if n ≤ 1 then (x :: cur).reverse :: chunksGo batch_size xs [] batch_size
    else chunksGo batch_size xs (x :: cur) (n - 1)

/-- translator.py line 37: `[segments[i:i + batch_size] for i in
range(0, len(segments), batch_size)]`.  Faithful for `batch_size ≥ 1`
(Python raises `ValueError` on a zero step, which is out of scope). -/
def chunks (batch_size : Nat) (segments : List Segment) : List (List Segment) :=
  chunksGo batch_size segments [] batch_size

/-- translator.py lines 15-93: `translate_segments`.  The missing-credential
check raises (`.error`) before any batch; each batch is processed
independently and the collection is returned re-assembled. -/
def translate_segments (call : String → List (Int × String) → Option String)
    (loads : String → Option Json) (segments : List Segment)
    (api_key model : String) (batch_size : Nat) : Except String (List Segment) :=
  if api_key = "" then .error "Vui long nhap OpenRouter API Key trong Sidebar!"
  else .ok (((chunks batch_size segments).map (processOneBatch call loads model)).flatten)

/-! ## Audio timeline assembler (src/core/merger.py, lines 13-79)

The pydub library is an external collaborator; its `AudioSegment` is
modelled as a syntax tree recording how the buffer was built, with pydub's
length semantics: `overlay` keeps the base length (overflowing clips are
truncated), slicing takes a prefix, concatenation adds.  The filesystem and
decoder are oracles `exists_ : String → Bool` (`os.path.exists`) and
`from_file : String → Option Audio` (`AudioSegment.from_file`, `none` when
the file is unreadable and the enclosing `except` fires). -/

/-- A pydub `AudioSegment` as built by the assembler. -/
inductive Audio where
  | silent (ms : Nat)
  | clip (path : String) (ms : Nat)
  | gain (a : Audio) (db : ℚ)
  | overlay (base top : Audio) (position : Int)
  | slice (a : Audio) (ms : Nat)
  | concat (a b : Audio)

/-- `len(audio)` in milliseconds, following pydub's contract. -/
def Audio.len : Audio → Nat
  | .silent ms => ms
  | .clip _ ms => ms
  | .gain a _ => a.len
  | .overlay base _ _ => base.len
  | .slice a ms => min a.len ms
  | .concat a b => a.len + b.len

/-- Number of overlay operations recorded in the buffer. -/
def Audio.countOverlays : Audio → Nat
  | .silent _ => 0
  | .clip _ _ => 0
  | .gain a _ => a.countOverlays
  | .overlay base top _ => base.countOverlays + top.countOverlays + 1
  | .slice a _ => a.countOverlays
  | .concat a b => a.countOverlays + b.countOverlays

/-- Python `int(x)` on a number: truncation toward zero. -/
def pyInt (q : ℚ) : Int := if 0 ≤ q then Int.floor q else Int.ceil q

/-- merger.py lines 47-48: the dubbed-volume gain adjustment, applied only
when `dubbed_volume != 1.0`. -/
def adjustClipVolume (dubbed_volume : ℚ) (audio : Audio) : Audio :=
  if dubbed_volume ≠ 1 then Audio.gain audio (20 * (dubbed_volume - 1)) else audio

/-- merger.py lines 38-53: one iteration of the overlay loop.  A falsy or
non-existent `audio_path` is skipped (`continue`), an unreadable clip is
skipped by the per-segment `except`; otherwise the (possibly gained) clip is
overlaid at `int(start * 1000)` ms. -/
def overlayStep (dubbed_volume : ℚ) (exists_ : String → Bool)
    (from_file : String → Option Audio) (combined : Audio) (seg : Segment) :
    Audio :=
  if seg.audio_path = "" ∨ exists_ seg.audio_path = false then combined
  else
    match from_file seg.audio_path with
    | none => combined
    | some audio =>
      let start_ms := pyInt (seg.start * 1000)
      Audio.overlay combined (adjustClipVolume dubbed_volume audio) start_ms

/-- merger.py lines 56-73: mix in the original track when a truthy path is
given, the file exists and `original_volume > 0`: attenuate by
`20 * (1 - original_volume)` dB, truncate if longer than the canvas, pad
with trailing silence if shorter, then overlay across the whole canvas.  A
load failure is caught and leaves the canvas unchanged. -/
def mixOriginal (original_audio_path : Option String) (original_volume : ℚ)
    (exists_ : String → Bool) (from_file : String → Option Audio)
    (combined : Audio) : Audio :=
  match original_audio_path with
  | none => combined
  | some p =>
    if p ≠ "" ∧ exists_ p = true ∧ 0 < original_volume then
      match from_file p with
      | none => combined
      | some original =>
        let original := Audio.gain original (-(20 * (1 - original_volume)))
        let original :=
          if combined.len < original.len then Audio.slice original combined.len
          else if original.len < combined.len then
            Audio.concat original (Audio.silent (combined.len - original.len))
          else original
        Audio.overlay combined original 0
    else combined

/-- merger.py lines 13-79: `create_dubbed_audio`, returning the final mixed
buffer (the mp3 export of that buffer is the external encoder). -/
def create_dubbed_audio (segments : List Segment) (total_duration : ℚ)
    (original_audio_path : Option String) (original_volume dubbed_volume : ℚ)
    (exists_ : String → Bool) (from_file : String → Option Audio) : Audio :=
  let total_ms := (pyInt (total_duration * 1000)).toNat
  let combined := Audio.silent total_ms
  let combined := segments.foldl (overlayStep dubbed_volume exists_ from_file) combined
  mixOriginal original_audio_path original_volume exists_ from_file combined

/-! ### Merge lemmas -/

theorem mergeLoop_good (min_duration : ℚ) :
    ∀ (l : List Segment) (cur : Segment),
      ∃ c t, mergeLoop min_duration cur l = c :: t ∧ c.start = cur.start ∧
        goodRun min_duration c t := by
  intro l
  induction l with
  | nil => intro cur; exact ⟨cur, [], rfl, rfl, trivial⟩
  | cons n rest ih =>
    intro cur
    by_cases h : cur.endTime - cur.start < min_duration ∨ n.start - cur.endTime < 1/2
    · obtain ⟨c, t, heq, hs, hg⟩ :=
        ih { cur with endTime := n.endTime, text := cur.text ++ " " ++ n.text }
      exact ⟨c, t, by simp only [mergeLoop, if_pos h]; exact heq, hs, hg⟩
    · obtain ⟨c, t, heq, hs, hg⟩ := ih n
      refine ⟨cur, c :: t, by simp only [mergeLoop, if_neg h]; rw [heq], rfl, ?_, hg⟩
      rw [hs]
      exact h

theorem goodRun_mergeLoop (min_duration : ℚ) :
    ∀ (l : List Segment) (cur : Segment), goodRun min_duration cur l →
      mergeLoop min_duration cur l = cur :: l := by
  intro l
  induction l with
  | nil => intro cur _; rfl
  | cons n rest ih =>
    intro cur hg
    obtain ⟨hnc, hg'⟩ := hg
    simp only [mergeLoop, if_neg hnc]
    rw [ih n hg']

/-- C4: re-running `merge_short_segments` with the same `min_duration` (the
gap threshold 0.5 is hardcoded) on its own output returns the output
unchanged, for every input that is non-decreasing by start with
`start < end` per segment. -/
theorem merge_idempotent (min_duration : ℚ) (segments : List Segment)
    (_hsort : List.Chain' (fun a b => a.start ≤ b.start) segments)
    (_hvalid : ∀ s ∈ segments, s.start < s.endTime) :
    merge_short_segments (merge_short_segments segments min_duration) min_duration
      = merge_short_segments segments min_duration := by
  match segments with
  | [] => rfl
  | first :: rest =>
    obtain ⟨c, t, heq, _, hg⟩ := mergeLoop_good min_duration rest first
    simp only [merge_short_segments, heq]
    exact goodRun_mergeLoop min_duration t c hg

theorem merge_idempotent_witness :
    merge_short_segments
        (merge_short_segments
          [⟨1, 0, 1, "a", .str "", ""⟩, ⟨2, 2, 4, "b", .str "", ""⟩] 1.5) 1.5
      = merge_short_segments
          [⟨1, 0, 1, "a", .str "", ""⟩, ⟨2, 2, 4, "b", .str "", ""⟩] 1.5 :=
  merge_idempotent 1.5 _
    (by simp only [List.chain'_cons, List.chain'_singleton, and_true]; norm_num)
    (by intro s hs
        simp only [List.mem_cons, List.not_mem_nil, or_false] at hs
        rcases hs with rfl | rfl <;> norm_num)

/-- C3 counterexample: on the spec's worked example the merge engine does
NOT return the claimed two segments.  After `Hi` and `there` merge, the
accumulator spans 0.0-1.2, whose duration 1.2 is still below
`min_duration = 1.5`, so the loop also merges `how are you` (the condition
tests the current accumulator's duration, not the incoming segment's). -/
theorem merge_example_ne_spec :
    merge_short_segments
        [⟨1, 0, 0.8, "Hi", .str "", ""⟩,
         ⟨2, 0.9, 1.2, "there", .str "", ""⟩,
         ⟨3, 3, 6, "how are you", .str "", ""⟩] 1.5
      ≠ [⟨1, 0, 1.2, "Hi there", .str "", ""⟩,
         ⟨3, 3, 6, "how are you", .str "", ""⟩] := by
  norm_num [merge_short_segments, mergeLoop]

/-- C3 amended: on the spec's worked example the merge engine returns one
single segment spanning 0.0-6.0 with all three texts joined, because the
accumulator's duration (1.2 after the first merge) is still below
`min_duration`, which triggers a second merge.  The accumulator keeps the
first segment's id (ids are only re-assigned later, in `transcribe_audio`). -/
theorem merge_example_actual :
    merge_short_segments
        [⟨1, 0, 0.8, "Hi", .str "", ""⟩,
         ⟨2, 0.9, 1.2, "there", .str "", ""⟩,
         ⟨3, 3, 6, "how are you", .str "", ""⟩] 1.5
      = [⟨1, 0, 6, "Hi there how are you", .str "", ""⟩] := by
  norm_num [merge_short_segments, mergeLoop]
  rfl

theorem joinSp_cons (s : String) (l : List String) (h : l ≠ []) :
    joinSp (s :: l) = s ++ " " ++ joinSp l := by
  match l with
  | [] => exact absurd rfl h
  | x :: xs => rfl

theorem joinSp_merge (a b : String) (xs : List String) :
    joinSp ((a ++ " " ++ b) :: xs) = joinSp (a :: b :: xs) := by
  match xs with
  | [] => rfl
  | x :: xs' =>
    show (a ++ " " ++ b) ++ " " ++ joinSp (x :: xs')
        = a ++ " " ++ (b ++ " " ++ joinSp (x :: xs'))
    simp [String.append_assoc]

theorem mergeLoop_joinSp (min_duration : ℚ) :
    ∀ (l : List Segment) (cur : Segment),
      joinSp ((mergeLoop min_duration cur l).map Segment.text)
        = joinSp (cur.text :: l.map Segment.text) := by
  intro l
  induction l with
  | nil => intro cur; rfl
  | cons n rest ih =>
    intro cur
    by_cases h : cur.endTime - cur.start < min_duration ∨ n.start - cur.endTime < 1/2
    · simp only [mergeLoop, if_pos h]
      rw [ih]
      exact joinSp_merge cur.text n.text (rest.map Segment.text)
    · simp only [mergeLoop, if_neg h, List.map]
      obtain ⟨c, t, heq, -, -⟩ := mergeLoop_good min_duration rest n
      have hne : (mergeLoop min_duration n rest).map Segment.text ≠ [] := by
        rw [heq]; simp
      rw [joinSp_cons _ _ hne, ih n,
        joinSp_cons _ _ (by simp : n.text :: rest.map Segment.text ≠ [])]

/-- C5: merging drops and reorders no text: joining the output texts with
single spaces equals joining the input texts with single spaces (the
inserted merge separators are exactly such single spaces, so they become
indistinguishable from the joining separators). -/
theorem merge_preserves_text (segments : List Segment) (min_duration : ℚ) :
    joinSp ((merge_short_segments segments min_duration).map Segment.text)
      = joinSp (segments.map Segment.text) := by
  match segments with
  | [] => rfl
  | first :: rest => exact mergeLoop_joinSp min_duration rest first

theorem mergeLoop_invariant (min_duration : ℚ) :
    ∀ (l : List Segment) (cur : Segment),
      List.Chain' (fun a b => a.start ≤ b.start) (cur :: l) →
      (∀ s ∈ cur :: l, s.start < s.endTime) →
      List.Chain' (fun a b => a.start ≤ b.start) (mergeLoop min_duration cur l) ∧
      (∀ s ∈ mergeLoop min_duration cur l, s.start < s.endTime) ∧
      List.Chain' (fun a b => a.endTime ≤ b.start) (mergeLoop min_duration cur l) := by
  intro l
  induction l with
  | nil =>
    intro cur _ hvalid
    refine ⟨by simp [mergeLoop], ?_, by simp [mergeLoop]⟩
    intro s hs
    simp only [mergeLoop, List.mem_singleton] at hs
    exact hs ▸ hvalid cur (by simp)
  | cons n rest ih =>
    intro cur hsort hvalid
    rw [List.chain'_cons] at hsort
    obtain ⟨hcn, hsort'⟩ := hsort
    by_cases h : cur.endTime - cur.start < min_duration ∨ n.start - cur.endTime < 1/2
    · simp only [mergeLoop, if_pos h]
      set merged : Segment :=
        { cur with endTime := n.endTime, text := cur.text ++ " " ++ n.text } with hm
      have hms : merged.start = cur.start := rfl
      have hme : merged.endTime = n.endTime := rfl
      refine ih merged ?_ ?_
      · rw [List.chain'_cons']
        refine ⟨?_, hsort'.tail⟩
        intro y hy
        have := List.chain'_cons'.mp hsort'
        have hny : n.start ≤ y.start := by
          cases rest with
          | nil => simp at hy
          | cons r rs =>
            simp only [List.head?_cons, Option.mem_def, Option.some.injEq] at hy
            rw [List.chain'_cons] at hsort'
            exact hy ▸ hsort'.1
        calc merged.start = cur.start := hms
          _ ≤ n.start := hcn
          _ ≤ y.start := hny
      · intro s hs
        rcases List.mem_cons.mp hs with rfl | hs'
        · rw [hms, hme]
          calc cur.start ≤ n.start := hcn
            _ < n.endTime := hvalid n (by simp)
        · exact hvalid s (by simp [hs'])
    · simp only [mergeLoop, if_neg h]
      push_neg at h
      obtain ⟨hdur, hgap⟩ := h
      obtain ⟨hrsort, hrvalid, hroverlap⟩ :=
        ih n hsort' (fun s hs => hvalid s (List.mem_cons_of_mem cur hs))
      obtain ⟨c, t, heq, hcs, -⟩ := mergeLoop_good min_duration rest n
      have hcurend : cur.endTime ≤ c.start := by
        rw [hcs]
        linarith
      refine ⟨?_, ?_, ?_⟩
      · rw [heq, List.chain'_cons]
        refine ⟨?_, heq ▸ hrsort⟩
        exact le_of_lt (lt_of_lt_of_le (hvalid cur (by simp)) hcurend)
      · intro s hs
        rcases List.mem_cons.mp hs with rfl | hs'
        · exact hvalid s (by simp)
        · exact hrvalid s hs'
      · rw [heq, List.chain'_cons]
        exact ⟨hcurend, heq ▸ hroverlap⟩

/-- C6: for input that is non-decreasing by start with `0 ≤ start < end`
per segment, the merged output is non-decreasing by start, every output
segment satisfies `start < end`, and consecutive output segments do not
overlap (`end ≤` next `start`). -/
theorem merge_order_invariant (segments : List Segment) (min_duration : ℚ)
    (hsort : List.Chain' (fun a b => a.start ≤ b.start) segments)
    (hvalid : ∀ s ∈ segments, 0 ≤ s.start ∧ s.start < s.endTime) :
    List.Chain' (fun a b => a.start ≤ b.start)
        (merge_short_segments segments min_duration) ∧
      (∀ s ∈ merge_short_segments segments min_duration, s.start < s.endTime) ∧
      List.Chain' (fun a b => a.endTime ≤ b.start)
        (merge_short_segments segments min_duration) := by
  match segments with
  | [] => exact ⟨List.chain'_nil, by simp [merge_short_segments], List.chain'_nil⟩
  | first :: rest =>
    exact mergeLoop_invariant min_duration rest first hsort
      (fun s hs => (hvalid s hs).2)

theorem merge_order_invariant_witness :
    List.Chain' (fun a b => a.start ≤ b.start)
        (merge_short_segments
          [⟨1, 0, 0.4, "x", .str "", ""⟩, ⟨2, 0.5, 3, "y", .str "", ""⟩] 1.5) ∧
      (∀ s ∈ merge_short_segments
          [⟨1, 0, 0.4, "x", .str "", ""⟩, ⟨2, 0.5, 3, "y", .str "", ""⟩] 1.5,
        s.start < s.endTime) ∧
      List.Chain' (fun a b => a.endTime ≤ b.start)
        (merge_short_segments
          [⟨1, 0, 0.4, "x", .str "", ""⟩, ⟨2, 0.5, 3, "y", .str "", ""⟩] 1.5) :=
  merge_order_invariant _ 1.5
    (by simp only [List.chain'_cons, List.chain'_singleton, and_true]; norm_num)
    (by intro s hs
        simp only [List.mem_cons, List.not_mem_nil, or_false] at hs
        rcases hs with rfl | rfl <;> norm_num)

/-! ### Translator lemmas -/

theorem chunksGo_flatten (batch_size : Nat) :
    ∀ (l cur : List Segment) (n : Nat),
      (chunksGo batch_size l cur n).flatten = cur.reverse ++ l := by
  intro l
  induction l with
  | nil =>
    intro cur n
    by_cases h : cur.isEmpty
    · simp only [chunksGo, if_pos h]
      simp [List.isEmpty_iff.mp h]
    · simp only [chunksGo, if_neg h]
      simp
  | cons x xs ih =>
    intro cur n
    by_cases h : n ≤ 1
    · simp only [chunksGo, if_pos h, List.flatten_cons, ih]
      simp
    · simp only [chunksGo, if_neg h, ih]
      simp

theorem chunks_flatten (batch_size : Nat) (segments : List Segment) :
    (chunks batch_size segments).flatten = segments := by
  simp [chunks, chunksGo_flatten]

theorem mem_of_mem_chunks (batch_size : Nat) {b : List Segment}
    {segments : List Segment} (hb : b ∈ chunks batch_size segments) :
    ∀ x ∈ b, x ∈ segments := by
  intro x hx
  have : x ∈ (chunks batch_size segments).flatten := List.mem_flatten.mpr ⟨b, hb, hx⟩
  rwa [chunks_flatten] at this

theorem dictLookup_mem {key : JKey} {v : Json} :
    ∀ {l : List (JKey × Json)}, dictLookup key l = some v → (key, v) ∈ l := by
  intro l
  induction l with
  | nil => intro h; simp [dictLookup] at h
  | cons kv rest ih =>
    intro h
    obtain ⟨k, w⟩ := kv
    simp only [dictLookup] at h
    by_cases hk : k = key
    · rw [if_pos hk] at h
      cases h
      simp [hk]
    · rw [if_neg hk] at h
      exact List.mem_cons_of_mem _ (ih h)

theorem processItem_truthy {item : Json} {acc acc' : List (JKey × Json)}
    (hacc : ∀ kv ∈ acc, kv.2.truthy = true)
    (h : processItem item acc = .ok acc') :
    ∀ kv ∈ acc', kv.2.truthy = true := by
  cases item with
  | obj fields =>
    simp only [processItem] at h
    split at h
    case isTrue hcond =>
      have hw : (pyOr [pyGet fields "vietnamese", pyGet fields "Vietnamese",
          pyGet fields "vi", pyGet fields "translation"]).truthy = true :=
        (Bool.and_eq_true _ _ |>.mp hcond).2
      have step : ∀ (k : JKey),
          (Except.ok ((k, pyOr [pyGet fields "vietnamese", pyGet fields "Vietnamese",
              pyGet fields "vi", pyGet fields "translation"]) :: acc)
            : Except Unit (List (JKey × Json)))
            = Except.ok acc' → ∀ kv ∈ acc', kv.2.truthy = true := by
        intro k hk kv hkv
        cases hk
        rcases List.mem_cons.mp hkv with rfl | hkv'
        · exact hw
        · exact hacc kv hkv'
      split at h
      · exact step _ h
      · exact step _ h
      · split at h
        · exact step _ h
        · exact step _ h
      · cases h
      · cases h
      · cases h
    case isFalse hcond =>
      cases h
      exact hacc
  | null => simp [processItem] at h
  | bool b => simp [processItem] at h
  | num n => simp [processItem] at h
  | str s => simp [processItem] at h
  | arr items => simp [processItem] at h

theorem processItems_truthy :
    ∀ {items : List Json} {acc res : List (JKey × Json)},
      (∀ kv ∈ acc, kv.2.truthy = true) → processItems items acc = .ok res →
      ∀ kv ∈ res, kv.2.truthy = true := by
  intro items
  induction items with
  | nil =>
    intro acc res hacc h
    cases h
    exact hacc
  | cons item rest ih =>
    intro acc res hacc h
    simp only [processItems] at h
    cases hstep : processItem item acc with
    | error e => rw [hstep] at h; cases h
    | ok acc' =>
      rw [hstep] at h
      exact ih (processItem_truthy hacc hstep) h

theorem itemsToMap_truthy {j : Json} {tr : List (JKey × Json)}
    (h : itemsToMap j = .ok tr) : ∀ kv ∈ tr, kv.2.truthy = true := by
  cases j with
  | arr items => exact processItems_truthy (by simp) h
  | str s =>
    simp only [itemsToMap] at h
    split at h
    · cases h; simp
    · cases h
  | obj fields =>
    simp only [itemsToMap] at h
    split at h
    · cases h; simp
    · cases h
  | null => cases h
  | bool b => cases h
  | num n => cases h

theorem parse_truthy {loads : String → Option Json} {r : String}
    {tr : List (JKey × Json)}
    (h : parse_translation_response loads r = .ok tr) :
    ∀ kv ∈ tr, kv.2.truthy = true := by
  simp only [parse_translation_response] at h
  split at h
  · exact itemsToMap_truthy h
  · split at h
    · exact itemsToMap_truthy h
    · cases h

theorem fallbackBatch_truthy {batch : List Segment}
    (htext : ∀ s ∈ batch, s.text ≠ "") :
    ∀ s ∈ fallbackBatch batch, s.vietnamese.truthy = true := by
  intro s hs
  obtain ⟨s₀, hs₀, rfl⟩ := List.mem_map.mp hs
  by_cases ht : s₀.vietnamese.truthy
  · simp [ht]
  · simp only [if_neg ht]
    simp [Json.truthy, htext s₀ hs₀]

theorem reconcileBatch_truthy {tr : List (JKey × Json)} {batch : List Segment}
    (htr : ∀ kv ∈ tr, kv.2.truthy = true)
    (htext : ∀ s ∈ batch, s.text ≠ "") :
    ∀ s ∈ reconcileBatch tr batch, s.vietnamese.truthy = true := by
  intro s hs
  obtain ⟨s₀, hs₀, rfl⟩ := List.mem_map.mp hs
  cases h1 : dictLookup (JKey.num s₀.id) tr with
  | some v =>
    simp only [h1]
    exact htr _ (dictLookup_mem h1)
  | none =>
    cases h2 : dictLookup (JKey.str (toString s₀.id)) tr with
    | some v =>
      simp only [h1, h2]
      exact htr _ (dictLookup_mem h2)
    | none =>
      simp only [h1, h2]
      by_cases ht : s₀.vietnamese.truthy
      · simp [ht]
      · simp only [if_neg ht]
        simp [Json.truthy, htext s₀ hs₀]

theorem handleResponse_truthy {loads : String → Option Json}
    {response : Option String} {batch : List Segment}
    (htext : ∀ s ∈ batch, s.text ≠ "") :
    ∀ s ∈ handleResponse loads response batch, s.vietnamese.truthy = true := by
  cases response with
  | none => exact fallbackBatch_truthy htext
  | some r =>
    by_cases hr : r = ""
    · simp only [handleResponse, if_pos hr]
      exact fallbackBatch_truthy htext
    · simp only [handleResponse, if_neg hr]
      cases hp : parse_translation_response loads r with
      | error e =>
        simp only [hp]
        exact fallbackBatch_truthy htext
      | ok tr =>
        simp only [hp]
        by_cases he : tr.isEmpty
        · simp only [if_pos he]
          exact fallbackBatch_truthy htext
        · simp only [if_neg he]
          exact reconcileBatch_truthy (parse_truthy hp) htext

/-- C1: for every segment collection whose segments carry non-empty source
text, every shape of external reply (any `call` oracle: valid JSON, fenced
JSON, JSON inside prose, empty reply, malformed reply, or no reply) and any
decoder behaviour, `translate_segments` returns a collection in which every
segment's `vietnamese` field is truthy (in particular neither `None` nor the
empty string). -/
theorem translate_segments_completeness
    (call : String → List (Int × String) → Option String)
    (loads : String → Option Json) (segments : List Segment)
    (api_key model : String) (batch_size : Nat)
    (hkey : api_key ≠ "") (_hbs : 0 < batch_size)
    (htext : ∀ s ∈ segments, s.text ≠ "") :
    ∀ out, translate_segments call loads segments api_key model batch_size
        = .ok out → ∀ s ∈ out, s.vietnamese.truthy = true := by
  intro out hout s hs
  rw [translate_segments, if_neg hkey] at hout
  cases hout
  obtain ⟨b', hb', hsb'⟩ := List.mem_flatten.mp hs
  obtain ⟨b, hb, rfl⟩ := List.mem_map.mp hb'
  exact handleResponse_truthy
    (fun x hx => htext x (mem_of_mem_chunks batch_size hb x hx)) s hsb'

theorem translate_segments_completeness_witness :
    (⟨1, 0, 1, "Hi", Json.str "Hi", ""⟩ : Segment).vietnamese.truthy = true :=
  translate_segments_completeness (fun _ _ => none) (fun _ => none)
    [⟨1, 0, 1, "Hi", Json.str "", ""⟩] "k" "m" 20
    (by decide) (by decide)
    (by intro s hs
        simp only [List.mem_cons, List.not_mem_nil, or_false] at hs
        subst hs
        decide)
    [⟨1, 0, 1, "Hi", Json.str "Hi", ""⟩] rfl
    ⟨1, 0, 1, "Hi", Json.str "Hi", ""⟩ (List.mem_singleton.mpr rfl)

/-- C2: if every call to the external service fails (`call` always returns
`none`) and no segment has a translation set beforehand, `translate_segments`
returns the collection with each segment's `vietnamese` set to its own
source `text`. -/
theorem translate_segments_fallback
    (call : String → List (Int × String) → Option String)
    (loads : String → Option Json) (segments : List Segment)
    (api_key model : String) (batch_size : Nat)
    (hkey : api_key ≠ "") (_hbs : 0 < batch_size)
    (hfail : ∀ m payload, call m payload = none)
    (hunset : ∀ s ∈ segments, s.vietnamese.truthy = false) :
    translate_segments call loads segments api_key model batch_size
      = .ok (segments.map fun s => { s with vietnamese := .str s.text }) := by
  rw [translate_segments, if_neg hkey]
  have h1 : (chunks batch_size segments).map (processOneBatch call loads model)
      = (chunks batch_size segments).map fallbackBatch := by
    apply List.map_congr_left
    intro b hb
    rw [processOneBatch, hfail]
    rfl
  rw [h1]
  have h2 : ((chunks batch_size segments).map fallbackBatch).flatten
      = segments.map fun s =>
          if s.vietnamese.truthy then s else { s with vietnamese := .str s.text } := by
    show ((chunks batch_size segments).map
        (List.map fun seg => if seg.vietnamese.truthy then seg
          else { seg with vietnamese := .str seg.text })).flatten = _
    rw [← List.map_flatten, chunks_flatten]
  rw [h2]
  congr 1
  apply List.map_congr_left
  intro s hs
  rw [hunset s hs]
  simp

theorem translate_segments_fallback_witness :
    translate_segments (fun _ _ => none) (fun _ => none)
        [⟨1, 0, 1, "Hello", Json.str "", ""⟩] "k" "m" 20
      = .ok [⟨1, 0, 1, "Hello", Json.str "Hello", ""⟩] :=
  translate_segments_fallback (fun _ _ => none) (fun _ => none)
    [⟨1, 0, 1, "Hello", Json.str "", ""⟩] "k" "m" 20
    (by decide) (by decide) (fun _ _ => rfl)
    (by intro s hs
        simp only [List.mem_cons, List.not_mem_nil, or_false] at hs
        subst hs
        decide)

theorem pyGet_append_last (fields : List (String × Json)) (k : String) (v : Json) :
    pyGet (fields ++ [(k, v)]) k = v := by
  simp [pyGet, pyGetRev, List.reverse_append]

theorem pyGet_append_ne (fields : List (String × Json)) (k key : String) (v : Json)
    (h : k ≠ key) : pyGet (fields ++ [(k, v)]) key = pyGet fields key := by
  simp [pyGet, pyGetRev, List.reverse_append, h]

theorem pyOr_cons_truthy {v : Json} (h : v.truthy = true) (rest : List Json) :
    pyOr (v :: rest) = v := by
  cases rest with
  | nil => rfl
  | cons w ws => simp [pyOr, h]

theorem processItem_congr (n : Int) (s : String) (fields : List (String × Json))
    (hsn : pyIntOfString s = some n) (hs : s ≠ "") (hn : n ≠ 0) :
    ∀ acc, processItem (Json.obj (fields ++ [("id", Json.str s)])) acc
      = processItem (Json.obj (fields ++ [("id", Json.num n)])) acc := by
  intro acc
  have hstruthy : (Json.str s).truthy = true := by simp [Json.truthy, hs]
  have hntruthy : (Json.num n).truthy = true := by simp [Json.truthy, hn]
  have hid1 : pyOr [pyGet (fields ++ [("id", Json.str s)]) "id",
      pyGet (fields ++ [("id", Json.str s)]) "ID",
      pyGet (fields ++ [("id", Json.str s)]) "Id"] = Json.str s := by
    rw [pyGet_append_last]
    exact pyOr_cons_truthy hstruthy _
  have hid2 : pyOr [pyGet (fields ++ [("id", Json.num n)]) "id",
      pyGet (fields ++ [("id", Json.num n)]) "ID",
      pyGet (fields ++ [("id", Json.num n)]) "Id"] = Json.num n := by
    rw [pyGet_append_last]
    exact pyOr_cons_truthy hntruthy _
  have hviet : ∀ (w : Json),
      pyOr [pyGet (fields ++ [("id", w)]) "vietnamese",
        pyGet (fields ++ [("id", w)]) "Vietnamese",
        pyGet (fields ++ [("id", w)]) "vi",
        pyGet (fields ++ [("id", w)]) "translation"]
      = pyOr [pyGet fields "vietnamese", pyGet fields "Vietnamese",
          pyGet fields "vi", pyGet fields "translation"] := by
    intro w
    rw [pyGet_append_ne _ _ _ _ (by decide), pyGet_append_ne _ _ _ _ (by decide),
      pyGet_append_ne _ _ _ _ (by decide), pyGet_append_ne _ _ _ _ (by decide)]
  simp only [processItem, hid1, hid2, hviet, Json.isNull, Bool.not_false,
    Bool.true_and]
  by_cases hw : (pyOr [pyGet fields "vietnamese", pyGet fields "Vietnamese",
      pyGet fields "vi", pyGet fields "translation"]).truthy = true
  · simp only [hw, if_pos, hsn]
  · simp only [Bool.not_eq_true] at hw
    simp only [hw, Bool.false_eq_true, if_false]

theorem processItems_congr {i₁ i₂ : Json}
    (hstep : ∀ acc, processItem i₁ acc = processItem i₂ acc) :
    ∀ (pre suf : List Json) (acc : List (JKey × Json)),
      processItems (pre ++ i₁ :: suf) acc = processItems (pre ++ i₂ :: suf) acc := by
  intro pre
  induction pre with
  | nil =>
    intro suf acc
    simp only [List.nil_append, processItems, hstep acc]
  | cons p pre' ih =>
    intro suf acc
    simp only [List.cons_append, processItems]
    cases hp : processItem p acc with
    | error e => rfl
    | ok acc' => exact ih suf acc'

/-- C8: id-matching robustness.  First, a reply item carrying its id as a
decimal string (`"id": s` with `int(s) = n`) produces exactly the same
parsed translation map as the same item carrying the numeric id
(`"id": n`), for non-zero ids in any surrounding item list (the id field is
written last so that it governs under duplicate-key semantics).  Second,
whole replies whose parses agree reconcile every batch to identical segment
collections, so the two reply shapes produce identical collections. -/
theorem id_matching_robustness :
    (∀ (n : Int) (s : String) (fields : List (String × Json)) (pre suf : List Json)
        (acc : List (JKey × Json)),
        pyIntOfString s = some n → s ≠ "" → n ≠ 0 →
        processItems (pre ++ Json.obj (fields ++ [("id", Json.str s)]) :: suf) acc
          = processItems (pre ++ Json.obj (fields ++ [("id", Json.num n)]) :: suf) acc)
    ∧ (∀ (loads : String → Option Json) (r₁ r₂ : String) (batch : List Segment),
        r₁ ≠ "" → r₂ ≠ "" →
        parse_translation_response loads r₁ = parse_translation_response loads r₂ →
        handleResponse loads (some r₁) batch = handleResponse loads (some r₂) batch) := by
  constructor
  · intro n s fields pre suf acc hsn hs hn
    exact processItems_congr (processItem_congr n s fields hsn hs hn) pre suf acc
  · intro loads r₁ r₂ batch h₁ h₂ hparse
    simp only [handleResponse, if_neg h₁, if_neg h₂, hparse]

theorem id_matching_robustness_witness :
    (processItems [Json.obj [("vietnamese", Json.str "xin chao"), ("id", Json.str "3")]] []
      = processItems [Json.obj [("vietnamese", Json.str "xin chao"), ("id", Json.num 3)]] [])
    ∧ handleResponse (fun _ => none) (some "x") []
      = handleResponse (fun _ => none) (some "x") [] :=
  ⟨id_matching_robustness.1 3 "3" [("vietnamese", Json.str "xin chao")] [] [] []
      (by decide) (by decide) (by decide),
    id_matching_robustness.2 (fun _ => none) "x" "x" []
      (by decide) (by decide) rfl⟩

/-! ### Assembler lemmas -/

theorem overlayStep_len (dubbed_volume : ℚ) (exists_ : String → Bool)
    (from_file : String → Option Audio) (combined : Audio) (seg : Segment) :
    (overlayStep dubbed_volume exists_ from_file combined seg).len = combined.len := by
  unfold overlayStep
  split
  · rfl
  · cases hf : from_file seg.audio_path <;> simp [hf, Audio.len]

theorem foldl_overlayStep_len (dubbed_volume : ℚ) (exists_ : String → Bool)
    (from_file : String → Option Audio) :
    ∀ (l : List Segment) (combined : Audio),
      (l.foldl (overlayStep dubbed_volume exists_ from_file) combined).len
        = combined.len := by
  intro l
  induction l with
  | nil => intro combined; rfl
  | cons s rest ih =>
    intro combined
    rw [List.foldl_cons, ih, overlayStep_len]

theorem mixOriginal_len (original_audio_path : Option String) (original_volume : ℚ)
    (exists_ : String → Bool) (from_file : String → Option Audio)
    (combined : Audio) :
    (mixOriginal original_audio_path original_volume exists_ from_file combined).len
      = combined.len := by
  cases original_audio_path with
  | none => rfl
  | some p =>
    simp only [mixOriginal]
    split
    · cases hf : from_file p <;> simp [hf, Audio.len]
    · rfl

/-- C7: the assembler's output always has exactly the canvas duration —
`total_duration` seconds converted to whole milliseconds by truncation —
regardless of the segments, their clips' lengths or positions, and of the
optional original track (which the definition truncates when longer than the
canvas and pads with trailing silence when shorter). -/
theorem create_dubbed_audio_duration (segments : List Segment)
    (total_duration : ℚ) (original_audio_path : Option String)
    (original_volume dubbed_volume : ℚ) (exists_ : String → Bool)
    (from_file : String → Option Audio) :
    (create_dubbed_audio segments total_duration original_audio_path
        original_volume dubbed_volume exists_ from_file).len
      = (pyInt (total_duration * 1000)).toNat := by
  unfold create_dubbed_audio
  rw [mixOriginal_len, foldl_overlayStep_len]
  rfl

/-- C9: volume boundaries.  With `dubbed_volume = 1.0` the gain step leaves
every clip untouched (it is overlaid unchanged); with `original_volume = 0`
the guard `original_volume > 0` fails, so the original track is neither
loaded nor mixed: the result is identical to assembling with no original
track at all. -/
theorem volume_boundary :
    (∀ audio : Audio, adjustClipVolume 1 audio = audio)
    ∧ (∀ (segments : List Segment) (total_duration : ℚ) (p : String)
        (dubbed_volume : ℚ) (exists_ : String → Bool)
        (from_file : String → Option Audio),
        create_dubbed_audio segments total_duration (some p) 0 dubbed_volume
            exists_ from_file
          = create_dubbed_audio segments total_duration none 0 dubbed_volume
              exists_ from_file) := by
  constructor
  · intro audio
    simp [adjustClipVolume]
  · intro segments total_duration p dubbed_volume exists_ from_file
    unfold create_dubbed_audio mixOriginal
    simp

theorem reconcile_count (a : Audio) (n : Nat) :
    ((if n < a.len then Audio.slice a n
      else if a.len < n then Audio.concat a (Audio.silent (n - a.len))
      else a) : Audio).countOverlays = a.countOverlays := by
  split
  · rfl
  · split <;> simp [Audio.countOverlays]

theorem mixOriginal_count_eq (original_audio_path : Option String)
    (original_volume : ℚ) (exists_ : String → Bool)
    (from_file : String → Option Audio) (c₁ c₂ : Audio)
    (h : c₁.countOverlays = c₂.countOverlays) :
    (mixOriginal original_audio_path original_volume exists_ from_file c₁).countOverlays
      = (mixOriginal original_audio_path original_volume exists_ from_file c₂).countOverlays := by
  cases original_audio_path with
  | none => exact h
  | some p =>
    simp only [mixOriginal]
    split
    · cases hf : from_file p
      · simp [h]
      · simp only [hf, Audio.countOverlays, reconcile_count, h]
    · exact h

theorem foldl_overlayStep_count_eq (exists_ : String → Bool)
    (from_file : String → Option Audio) :
    ∀ (l : List Segment) (c₁ c₂ : Audio),
      c₁.countOverlays = c₂.countOverlays →
      (l.foldl (overlayStep 0 exists_ from_file) c₁).countOverlays
        = (l.foldl (overlayStep 1 exists_ from_file) c₂).countOverlays := by
  intro l
  induction l with
  | nil => intro c₁ c₂ h; exact h
  | cons s rest ih =>
    intro c₁ c₂ h
    rw [List.foldl_cons, List.foldl_cons]
    apply ih
    by_cases hskip : s.audio_path = "" ∨ exists_ s.audio_path = false
    · simp [overlayStep, hskip, h]
    · simp only [overlayStep, if_neg hskip]
      cases hf : from_file s.audio_path
      · exact h
      · norm_num [Audio.countOverlays, adjustClipVolume, h]

/-- C10: with `dubbed_volume = 0` the gain branch fires and every clip is
overlaid attenuated by exactly 20 dB (`20 * (0 - 1)` dB); unlike
`original_volume = 0`, a zero dubbed volume removes nothing from the mix:
the assembler performs exactly the same overlay operations as at unity
volume. -/
theorem zero_dubbed_volume :
    (∀ audio : Audio, adjustClipVolume 0 audio = Audio.gain audio (20 * (0 - 1)))
    ∧ (20 * ((0 : ℚ) - 1) = -20)
    ∧ (∀ (segments : List Segment) (total_duration : ℚ)
        (original_audio_path : Option String) (original_volume : ℚ)
        (exists_ : String → Bool) (from_file : String → Option Audio),
        (create_dubbed_audio segments total_duration original_audio_path
            original_volume 0 exists_ from_file).countOverlays
          = (create_dubbed_audio segments total_duration original_audio_path
              original_volume 1 exists_ from_file).countOverlays) := by
  refine ⟨?_, by norm_num, ?_⟩
  · intro audio
    norm_num [adjustClipVolume]
  · intro segments total_duration original_audio_path original_volume exists_ from_file
    unfold create_dubbed_audio
    exact mixOriginal_count_eq _ _ _ _ _ _
      (foldl_overlayStep_count_eq _ _ segments _ _ rfl)
